import Mathlib

/-!
Verification of the mutual-fund NAV tracker (src/app.py) against its
natural-language specification.

Shallow embedding conventions:
* Fund timestamps are calendar dates `⟨year, month, day⟩` ordered
  lexicographically (matching chronological order of valid dates); the code
  reads the day-of-month via pandas `.dt.day`, which is the `day` field here.
* NAV values are modelled as exact rationals `ℚ`; CAGR, which uses real
  exponentiation `**`, is modelled over `ℝ` with `Real.rpow`.
* `datetime.today() - timedelta(days=...)` cutoffs are environment inputs,
  so the pipeline functions take the cutoff date as a parameter.
* The benchmark (Nifty) layer works purely with timestamp differences, so its
  timestamps are modelled as integer day numbers.
* Exceptions are modelled with `Except`: a Python function that can raise is
  embedded as a function into `Except FetchErr _`.
-/

/-- Calendar date as carried by the fund DataFrame: pandas `.dt.day` reads the
`day` field. Ordered lexicographically, which agrees with chronological order
on valid dates. -/
structure Date where
  year : Int
  month : Nat
  day : Nat
deriving DecidableEq, Repr

/-- Chronological (lexicographic) order on dates, the order used by
`sort_values('date')` and by the cutoff comparisons `date >= cutoff`. -/
def Date.Le (a b : Date) : Prop :=
  a.year < b.year ∨ (a.year = b.year ∧
    (a.month < b.month ∨ (a.month = b.month ∧ a.day ≤ b.day)))

instance : DecidableRel Date.Le := by
  unfold Date.Le
  infer_instance

theorem Date.Le.refl (a : Date) : Date.Le a a := by
  simp [Date.Le]

theorem Date.Le.trans {a b c : Date} (h1 : Date.Le a b) (h2 : Date.Le b c) :
    Date.Le a c := by
  rcases h1 with h1 | ⟨h1, h1m | ⟨h1m, h1d⟩⟩ <;>
    rcases h2 with h2 | ⟨h2, h2m | ⟨h2m, h2d⟩⟩ <;>
    simp [Date.Le, *] <;> omega

theorem Date.Le.total (a b : Date) : Date.Le a b ∨ Date.Le b a := by
  simp only [Date.Le]
  omega

/-- One row of the fund history DataFrame after parsing: columns `date`, `nav`. -/
structure Obs where
  date : Date
  nav : ℚ
deriving DecidableEq, Repr

/-- Row order used by `sort_values('date')` on the fund frame (ascending). -/
def obsLe (a b : Obs) : Prop := Date.Le a.date b.date

instance : DecidableRel obsLe := fun a b => by
  unfold obsLe
  infer_instance

instance : IsTotal Obs obsLe := ⟨fun a b => Date.Le.total a.date b.date⟩

instance : IsTrans Obs obsLe := ⟨fun _ _ _ h1 h2 => Date.Le.trans h1 h2⟩

instance : IsRefl Obs obsLe := ⟨fun a => Date.Le.refl a.date⟩

/-- Descending row order used by `sort_values('Date', ascending=False)`. -/
def obsGe (a b : Obs) : Prop := Date.Le b.date a.date

instance : DecidableRel obsGe := fun a b => by
  unfold obsGe
  infer_instance

/- ----------------- FETCH (fetch_fund_history) ----------------- -/

/-- Failure at the fetch boundary: an exception raised by `requests.get`
(connection error / timeout), by `.json()`, or by the column conversions
`pd.to_datetime(..., format=...)` / `astype(float)`. -/
inductive FetchErr where
  | transport
  | badJson
  | badRecord
deriving DecidableEq, Repr

/-- One raw record of the JSON `data` list. `date = none` models a string not
matching `DD-MM-YYYY` (so `pd.to_datetime` raises); `nav = none` models a
non-numeric nav string (so `astype(float)` raises). -/
structure RawRecord where
  date : Option Date
  nav : Option ℚ
deriving DecidableEq, Repr

/-- What `requests.get(url).json().get('data', [])` can produce: a raised
exception from the transport or JSON layer, or a JSON object whose `data`
field is absent (`none`, defaulted to `[]` by `.get`) or a list of records. -/
inductive FetchResponse where
  | failure (e : FetchErr)
  | payload (data : Option (List RawRecord))
deriving DecidableEq, Repr

/-- Column conversion of the record list: `pd.to_datetime` / `astype(float)`
raise on the first malformed record; otherwise every record is parsed. -/
def parseRecords : List RawRecord → Except FetchErr (List Obs)
  | [] => Except.ok []
  | r :: rs =>
    match r.date, r.nav with
    | some d, some v => (parseRecords rs).map (fun os => ⟨d, v⟩ :: os)
    | _, _ => Except.error FetchErr.badRecord

/-- Embedding of `fetch_fund_history` (src/app.py lines 19-28). There is no
try/except in the source: a raised exception propagates (`Except.error`).
A payload with a missing or empty `data` list returns the empty frame; a
successfully parsed payload is sorted ascending by date. -/
def fetch_fund_history (resp : FetchResponse) : Except FetchErr (List Obs) :=
  match resp with
  | FetchResponse.failure e => Except.error e
  | FetchResponse.payload none => Except.ok []
  | FetchResponse.payload (some recs) =>
    if recs.isEmpty then Except.ok []
    else (parseRecords recs).map (fun os => os.insertionSort obsLe)

/- ----------------- SAMPLER (get_fund_data lines 63-66) ----------------- -/

/-- Embedding of the sampling step of `get_fund_data` (src/app.py lines
63-66): keep the observations dated on or after the cutoff, then keep only
the rows whose day-of-month equals 3. There is no fallback to neighbouring
days in the source. -/
def monthly_sample (cutoff : Date) (s : List Obs) : List Obs :=
  (s.filter (fun o => decide (Date.Le cutoff o.date))).filter
    (fun o => decide (o.date.day = 3))

/-- Embedding of pandas `pct_change() * 100` on a value column: the first
entry is undefined (NaN, modelled `none`); entry i > 0 is
`(v[i] - v[i-1]) / v[i-1] * 100`. -/
def pct_change : List ℚ → List (Option ℚ)
  | [] => []
  | v :: vs => none :: pctFrom v vs
where
  /-- Tail of the percent-change column given the previous value. -/
  pctFrom (prev : ℚ) : List ℚ → List (Option ℚ)
    | [] => []
    | v :: vs => some ((v - prev) / prev * 100) :: pctFrom v vs

/-- One row of the frame returned by `get_fund_data`: columns `Date`, `NAV`,
`Fund Change (%)`. -/
structure FundRow where
  date : Date
  nav : ℚ
  change : Option ℚ
deriving DecidableEq, Repr

/-- Descending order on result rows, for `sort_values('Date', ascending=False)`. -/
def rowGe (a b : FundRow) : Prop := Date.Le b.date a.date

instance : DecidableRel rowGe := fun a b => by
  unfold rowGe
  infer_instance

/-- Embedding of `get_fund_data` (src/app.py lines 49-74): empty history gives
an empty frame; otherwise window to the cutoff, keep day-3 rows, sort
ascending, compute the percent-change column on the ascending order, and
return the rows sorted newest-first for display. -/
def get_fund_data (hist : List Obs) (cutoff5 : Date) : List FundRow :=
  if hist.isEmpty then []
  else
    let asc := (monthly_sample cutoff5 hist).insertionSort obsLe
    let changes := pct_change (asc.map Obs.nav)
    ((asc.zip changes).map (fun p => FundRow.mk p.1.date p.1.nav p.2)).insertionSort rowGe

/- ----------------- CURRENT / ALL-TIME NAV ----------------- -/

/-- The four fields of the dict returned by `get_current_and_alltime_nav`. -/
structure NavInfo where
  current_nav : Option ℚ
  current_date : Option Date
  max_nav : Option ℚ
  max_date : Option Date
deriving DecidableEq, Repr

/-- Embedding of `df_all.loc[df_all['nav'].idxmax()]`: pandas `idxmax` returns
the first row attaining the maximal nav. -/
def firstMaxNav : List Obs → Option Obs
  | [] => none
  | o :: os =>
    match firstMaxNav os with
    | none => some o
    | some m => if m.nav > o.nav then some m else some o

/-- Embedding of `get_current_and_alltime_nav` (src/app.py lines 76-89),
taking the already-fetched ascending history: empty history gives all-None
fields; otherwise the current row is the last row (`iloc[-1]`) and the
all-time row is the first row attaining the maximal nav (`idxmax`). -/
def get_current_and_alltime_nav (hist : List Obs) : NavInfo :=
  if hist.isEmpty then ⟨none, none, none, none⟩
  else
    match hist.getLast?, firstMaxNav hist with
    | some c, some m => ⟨some c.nav, some c.date, some m.nav, some m.date⟩
    | _, _ => ⟨none, none, none, none⟩

/- ----------------- CAGR ----------------- -/

open Classical in
/-- Embedding of `calculate_cagr` (src/app.py lines 105-108); the float power
`**` is modelled by real exponentiation `Real.rpow`. -/
noncomputable def calculate_cagr (start_value end_value years : ℝ) : Option ℝ :=
  if start_value ≤ 0 ∨ end_value ≤ 0 ∨ years ≤ 0 then none
  else some (((end_value / start_value) ^ ((1 : ℝ) / years) - 1) * 100)

/-- A pandas exception raised by column access: `hist['date']` on a DataFrame
that has no `date` column raises KeyError. -/
inductive PdErr where
  | keyError
deriving DecidableEq, Repr

/-- Embedding of `get_cagr_from_history` (src/app.py lines 125-140) with the
`column='NAV'` branch the program always takes, parameterised by the cutoff
date `datetime.today() - timedelta(days=years*365)`. `hist` is the output of
`fetch_fund_history`, which builds `pd.DataFrame([])` — an empty frame with
no columns — whenever the data list is empty, and only adds the `date`/`nav`
columns on the nonempty path; `get_cagr_from_history` has no empty-guard
(unlike its sibling functions), so on an empty history the column access
`hist['date']` at line 129 raises KeyError. On a nonempty history it filters
to dates on or after the cutoff, sorts ascending, and when at least two rows
remain applies `calculate_cagr` to the first and last nav, otherwise None. -/
noncomputable def get_cagr_from_history (hist : List Obs) (cutoff : Date)
    (years : ℚ) : Except PdErr (Option ℝ) :=
  if hist.isEmpty then Except.error PdErr.keyError
  else
    Except.ok (
      let hist_f := (hist.filter (fun o => decide (Date.Le cutoff o.date))).insertionSort obsLe
      if 2 ≤ hist_f.length then
        match hist_f.head?, hist_f.getLast? with
        | some s, some e => calculate_cagr (s.nav : ℝ) (e.nav : ℝ) (years : ℝ)
        | _, _ => none
      else none)

/- ----------------- NIFTY LAYER ----------------- -/

/-- One row of the Nifty frame built by `get_nifty_data`: a timestamp
(modelled as an integer day number, since this layer only compares and
subtracts timestamps), the closing price `Nifty`, and the pre-computed
`Nifty Change (%)` column (None for the first row). -/
structure NiftyRow where
  date : Int
  price : ℚ
  change : Option ℚ
deriving DecidableEq, Repr

/-- Ascending timestamp order used by `sort_values('Date')` on the Nifty frame. -/
def niftyLe (a b : NiftyRow) : Prop := a.date ≤ b.date

instance : DecidableRel niftyLe := fun a b => by
  unfold niftyLe
  infer_instance

instance : IsTotal NiftyRow niftyLe := ⟨fun a b => Int.le_total a.date b.date⟩

instance : IsTrans NiftyRow niftyLe := ⟨fun _ _ _ h1 h2 => Int.le_trans h1 h2⟩

instance : IsRefl NiftyRow niftyLe := ⟨fun a => Int.le_refl a.date⟩

/-- Embedding of `nifty_cagr_years` (src/app.py lines 146-153), parameterised
by the cutoff day number: empty frame gives None; otherwise filter to the
window, sort ascending, and with at least two rows apply `calculate_cagr` to
the first and last closing price. -/
noncomputable def nifty_cagr_years (nifty : List NiftyRow) (cutoff : Int)
    (years : ℚ) : Option ℝ :=
  if nifty.isEmpty then none
  else
    let df_f := (nifty.filter (fun r => decide (cutoff ≤ r.date))).insertionSort niftyLe
    if 2 ≤ df_f.length then
      match df_f.head?, df_f.getLast? with
      | some s, some e => calculate_cagr (s.price : ℝ) (e.price : ℝ) (years : ℝ)
      | _, _ => none
    else none

/- ----------------- ALIGNER (merge_fund_nifty) ----------------- -/

/-- Sort key of the aligner for primary date `d`: the absolute timestamp
distance `(nifty_df['Date'] - d).abs()` at position `i`. -/
def alignKey (d : Int) (nifty : List NiftyRow) (i : Nat) : Nat :=
  ((nifty.getD i ⟨0, 0, none⟩).date - d).natAbs

/-- A possible output of `(nifty_df['Date'] - d).abs().argsort()`. numpy
argsort defaults to an unstable quicksort, so the only guarantee is that the
returned index list is a permutation of the row indices along which the keys
are nondecreasing; the relative order of equal keys is unspecified, and the
aligner is modelled over every permutation argsort may legally return. -/
def validArgsort (d : Int) (nifty : List NiftyRow) (perm : List Nat) : Prop :=
  perm.Perm (List.range nifty.length) ∧
    perm.Pairwise (fun i j => alignKey d nifty i ≤ alignKey d nifty j)

instance (d : Int) (nifty : List NiftyRow) (perm : List Nat) :
    Decidable (validArgsort d nifty perm) := by
  unfold validArgsort
  exact instDecidableAnd

/-- Embedding of the selection inside `merge_fund_nifty` (src/app.py lines
99-102): `nifty_df.iloc[argsort[:1]]['Nifty Change (%)'].values[0]`, i.e. the
change value of the row whose index argsort placed first. -/
def selected_change (nifty : List NiftyRow) (perm : List Nat) : Option ℚ :=
  match perm.head? with
  | none => none
  | some i => (nifty.getD i ⟨0, 0, none⟩).change

/- ----------------- UI TILES ----------------- -/

/-- Embedding of the tile interpolation `(fund_cagr_2y or 0)` (src/app.py
lines 172-175): a None CAGR is rendered as the number 0. -/
def cagr_tile_value (c : Option ℝ) : ℝ := c.getD 0

/- ----------------- HELPER LEMMAS ----------------- -/

/-- A list whose head (under a reflexive sorted order) exists bounds the whole
list from below. -/
theorem sorted_head_all {α : Type} {r : α → α → Prop} [IsRefl α r] {l : List α}
    {s : α} (hs : List.Sorted r l) (hh : l.head? = some s) : ∀ x ∈ l, r s x := by
  cases l with
  | nil => simp at hh
  | cons a t =>
    simp only [List.head?_cons, Option.some.injEq] at hh
    subst hh
    intro x hx
    rcases List.mem_cons.mp hx with rfl | hx
    · exact refl_of r x
    · exact List.rel_of_sorted_cons hs x hx

/-- The last element of a list, when it exists, is a member. -/
theorem getLast?_mem {α : Type} : ∀ {l : List α} {e : α},
    l.getLast? = some e → e ∈ l
  | [], e => by simp
  | [a], e => by
    intro h
    simp only [List.getLast?_singleton, Option.some.injEq] at h
    simp [h]
  | a :: b :: t, e => by
    intro h
    rw [List.getLast?_cons_cons] at h
    exact List.mem_cons_of_mem a (getLast?_mem h)

/-- A sorted list (under a reflexive order) is bounded above by its last
element. -/
theorem sorted_getLast_all {α : Type} {r : α → α → Prop} [IsRefl α r] :
    ∀ {l : List α} {e : α}, List.Sorted r l → l.getLast? = some e → ∀ x ∈ l, r x e
  | [], e => by simp
  | [a], e => by
    intro _ h x hx
    simp only [List.getLast?_singleton, Option.some.injEq] at h
    simp only [List.mem_singleton] at hx
    subst h; subst hx
    exact refl_of r x
  | a :: b :: t, e => by
    intro hs h x hx
    rw [List.getLast?_cons_cons] at h
    rcases List.mem_cons.mp hx with rfl | hx
    · exact List.rel_of_sorted_cons hs e (getLast?_mem h)
    · exact sorted_getLast_all hs.of_cons h x hx

/-- The head of an insertion sort of a nonempty list is a least element of the
list. -/
theorem insertionSort_head_min {α : Type} (r : α → α → Prop) [DecidableRel r]
    [IsTotal α r] [IsTrans α r] [IsRefl α r] (l : List α) (hne : l ≠ []) :
    ∃ s, (l.insertionSort r).head? = some s ∧ s ∈ l ∧ ∀ x ∈ l, r s x := by
  have hperm := List.perm_insertionSort r l
  have hsort := List.sorted_insertionSort r l
  cases hs : l.insertionSort r with
  | nil =>
    exact absurd ((hs ▸ hperm).symm.eq_nil) hne
  | cons a t =>
    refine ⟨a, rfl, ?_, ?_⟩
    · exact hperm.mem_iff.mp (by rw [hs]; exact List.mem_cons_self a t)
    · intro x hx
      exact sorted_head_all (l := a :: t) (s := a) (hs ▸ hsort) rfl x
        (hs ▸ hperm.mem_iff.mpr hx)

/-- The last element of an insertion sort of a nonempty list is a greatest
element of the list. -/
theorem insertionSort_getLast_max {α : Type} (r : α → α → Prop) [DecidableRel r]
    [IsTotal α r] [IsTrans α r] [IsRefl α r] (l : List α) (hne : l ≠ []) :
    ∃ e, (l.insertionSort r).getLast? = some e ∧ e ∈ l ∧ ∀ x ∈ l, r x e := by
  have hperm := List.perm_insertionSort r l
  have hsort := List.sorted_insertionSort r l
  cases hs : (l.insertionSort r).getLast? with
  | none =>
    rw [List.getLast?_eq_none_iff] at hs
    exact absurd ((hs ▸ hperm).symm.eq_nil) hne
  | some e =>
    refine ⟨e, rfl, hperm.mem_iff.mp (getLast?_mem hs), ?_⟩
    intro x hx
    exact sorted_getLast_all hsort hs x (hperm.mem_iff.mpr hx)

/-- A record list containing a malformed record makes the column conversion
raise. -/
theorem parseRecords_error {recs : List RawRecord}
    (h : ∃ r ∈ recs, r.date = none ∨ r.nav = none) :
    ∃ e, parseRecords recs = Except.error e := by
  induction recs with
  | nil => simp at h
  | cons a t ih =>
    rcases h with ⟨r, hr, hbad⟩
    rcases List.mem_cons.mp hr with rfl | hrt
    · cases hd : r.date with
      | none => exact ⟨FetchErr.badRecord, by simp [parseRecords, hd]⟩
      | some d =>
        cases hn : r.nav with
        | none => exact ⟨FetchErr.badRecord, by simp [parseRecords, hd, hn]⟩
        | some v => simp [hd, hn] at hbad
    · cases hd : a.date with
      | none => exact ⟨FetchErr.badRecord, by simp [parseRecords, hd]⟩
      | some d =>
        cases hn : a.nav with
        | none => exact ⟨FetchErr.badRecord, by simp [parseRecords, hd, hn]⟩
        | some v =>
          obtain ⟨e, he⟩ := ih ⟨r, hrt, hbad⟩
          exact ⟨e, by simp [parseRecords, hd, hn, he, Except.map]⟩

/-- C1 counterexample: the claim says a transport failure yields an empty
Series, but `fetch_fund_history` has no try/except, so the raised transport
exception propagates out of the fetch boundary instead. -/
theorem c1_counterexample :
    fetch_fund_history (FetchResponse.failure FetchErr.transport) =
      Except.error FetchErr.transport ∧
    fetch_fund_history (FetchResponse.failure FetchErr.transport) ≠
      Except.ok [] := by
  refine ⟨rfl, ?_⟩
  intro h
  simp [fetch_fund_history] at h

/-- C1 (amended): the fetch returns an empty Series when the payload carries a
missing or empty data list; a transport/JSON failure or a malformed record
propagates as an exception rather than being converted to an empty Series;
any Series it does return is sorted ascending by date. -/
theorem c1_fetch_boundary :
    (∀ e, fetch_fund_history (FetchResponse.failure e) = Except.error e) ∧
    fetch_fund_history (FetchResponse.payload none) = Except.ok [] ∧
    fetch_fund_history (FetchResponse.payload (some [])) = Except.ok [] ∧
    (∀ recs : List RawRecord, (∃ r ∈ recs, r.date = none ∨ r.nav = none) →
      ∃ e, fetch_fund_history (FetchResponse.payload (some recs)) =
        Except.error e) ∧
    (∀ recs os, fetch_fund_history (FetchResponse.payload (some recs)) =
      Except.ok os → List.Sorted obsLe os) := by
  refine ⟨fun e => rfl, rfl, rfl, ?_, ?_⟩
  · intro recs h
    obtain ⟨e, he⟩ := parseRecords_error h
    obtain ⟨r, hr, _⟩ := h
    have hE : recs.isEmpty = false := by
      cases recs with
      | nil => simp at hr
      | cons a t => rfl
    exact ⟨e, by simp [fetch_fund_history, hE, he, Except.map]⟩
  · intro recs os h
    simp only [fetch_fund_history] at h
    by_cases hE : recs.isEmpty = true
    · rw [if_pos hE] at h
      cases h
      exact List.sorted_nil
    · rw [if_neg hE] at h
      cases hp : parseRecords recs with
      | error e =>
        rw [hp] at h
        simp [Except.map] at h
      | ok l =>
        rw [hp] at h
        simp only [Except.map, Except.ok.injEq] at h
        rw [← h]
        exact List.sorted_insertionSort obsLe l

/-- C1 witness: the amended statement at concrete inputs. -/
theorem c1_fetch_boundary_witness :
    fetch_fund_history (FetchResponse.failure FetchErr.badJson) =
      Except.error FetchErr.badJson ∧
    ∃ e, fetch_fund_history
      (FetchResponse.payload (some [⟨none, some 5⟩])) = Except.error e :=
  ⟨c1_fetch_boundary.1 FetchErr.badJson,
    c1_fetch_boundary.2.2.2.1 [⟨none, some 5⟩]
      ⟨⟨none, some 5⟩, List.mem_singleton.mpr rfl, Or.inl rfl⟩⟩

/-- C2 counterexample: the claim says a month with observations on days 1 and
5 but not 3 yields the day-5 observation, and a month with only day 1 yields
the day-1 observation. The source (line 66) is a plain `day == 3` filter with
no fallback, so both months yield nothing. -/
theorem c2_counterexample :
    monthly_sample ⟨2020, 1, 1⟩
      [⟨⟨2023, 1, 1⟩, 10⟩, ⟨⟨2023, 1, 5⟩, 11⟩] = [] ∧
    (⟨⟨2023, 1, 5⟩, 11⟩ : Obs) ∉
      monthly_sample ⟨2020, 1, 1⟩
        [⟨⟨2023, 1, 1⟩, 10⟩, ⟨⟨2023, 1, 5⟩, 11⟩] ∧
    monthly_sample ⟨2020, 1, 1⟩ [⟨⟨2023, 2, 1⟩, 12⟩] = [] := by
  decide

/-- C2 (amended): per (year, month) group the sampler keeps exactly the
in-window observations whose day-of-month equals 3; a month with no day-3
observation contributes nothing — there is no fallback to the earliest
observation after day 3 or the latest before it. -/
theorem c2_day3_filter (cutoff : Date) (s : List Obs) (o : Obs) :
    o ∈ monthly_sample cutoff s ↔
      o ∈ s ∧ Date.Le cutoff o.date ∧ o.date.day = 3 := by
  simp only [monthly_sample, List.mem_filter, decide_eq_true_eq, and_assoc,
    and_congr_right_iff]

/-- Value of the percent-change tail at index i, in terms of the previous
value chain. -/
theorem pctFrom_getD (prev : ℚ) (vs : List ℚ) :
    ∀ i, i < vs.length →
      (pct_change.pctFrom prev vs).getD i none =
        some ((vs.getD i 0 - (prev :: vs).getD i 0) /
          (prev :: vs).getD i 0 * 100) := by
  induction vs generalizing prev with
  | nil => intro i hi; simp at hi
  | cons v t ih =>
    intro i hi
    cases i with
    | zero => rfl
    | succ j =>
      have hj : j < t.length := by
        simpa using hi
      simpa [pct_change.pctFrom] using ih v j hj

/-- C3: the percent-change column has one entry per observation, the first
entry is undefined (not zero), and entry i > 0 equals
(value[i] - value[i-1]) / value[i-1] * 100, computed on the ascending order
of the values handed to it. -/
theorem c3_pct_change (vals : List ℚ) :
    (pct_change vals).length = vals.length ∧
    (vals ≠ [] → (pct_change vals).head? = some none) ∧
    (∀ i, i + 1 < vals.length →
      (pct_change vals).getD (i + 1) none =
        some ((vals.getD (i + 1) 0 - vals.getD i 0) / vals.getD i 0 * 100)) := by
  refine ⟨?_, ?_, ?_⟩
  · cases vals with
    | nil => rfl
    | cons v vs =>
      have hlen : ∀ (p : ℚ) (l : List ℚ), (pct_change.pctFrom p l).length = l.length := by
        intro p l
        induction l generalizing p with
        | nil => rfl
        | cons a t ih => simp [pct_change.pctFrom, ih]
      simp [pct_change, hlen]
  · intro h
    cases vals with
    | nil => exact absurd rfl h
    | cons v vs => rfl
  · intro i hi
    cases vals with
    | nil => simp at hi
    | cons v vs =>
      have hi2 : i < vs.length := by simpa using hi
      simpa [pct_change] using pctFrom_getD v vs i hi2

/-- C3 witness: on the spec scenario values [10, 11, 9] the first change is
undefined and the later ones are 10 and -200/11 (≈ -18.18). -/
theorem c3_pct_change_witness :
    (pct_change [10, 11, 9]).head? = some none ∧
    (pct_change [10, 11, 9]).getD 1 none = some 10 ∧
    (pct_change [10, 11, 9]).getD 2 none = some (-200 / 11) := by
  have h0 := (c3_pct_change [10, 11, 9]).2.1 (by simp)
  have h1 := (c3_pct_change [10, 11, 9]).2.2 0 (by norm_num)
  have h2 := (c3_pct_change [10, 11, 9]).2.2 1 (by norm_num)
  refine ⟨h0, ?_, ?_⟩
  · rw [h1]; norm_num
  · rw [h2]; norm_num

/-- Applying a two-predicate filter chain twice gives the same list as
applying it once. -/
theorem filter_pair_idem {α : Type} (f g : α → Bool) (l : List α) :
    (((l.filter f).filter g).filter f).filter g = (l.filter f).filter g := by
  simp only [List.filter_filter]
  apply List.filter_congr
  intro a _
  cases hf : f a <;> cases hg : g a <;> simp [hf, hg]

/-- C9: the sampling step (window filter plus day-3 filter) is idempotent —
sampling an already-sampled series yields the same series. -/
theorem c9_sampling_idempotent (cutoff : Date) (s : List Obs) :
    monthly_sample cutoff (monthly_sample cutoff s) = monthly_sample cutoff s := by
  unfold monthly_sample
  exact filter_pair_idem _ _ s

/-- C4: `calculate_cagr` is None exactly on the guarded domain (start, end or
years nonpositive) and otherwise equals ((end / start) ^ (1/years) - 1) * 100;
in particular CAGR(100, 121, 2) = 10, CAGR(100, 100, 5) = 0 and
CAGR(0, 50, 1) is None. -/
theorem c4_calculate_cagr :
    (∀ s e y : ℝ, (s ≤ 0 ∨ e ≤ 0 ∨ y ≤ 0) → calculate_cagr s e y = none) ∧
    (∀ s e y : ℝ, 0 < s → 0 < e → 0 < y →
      calculate_cagr s e y = some (((e / s) ^ ((1 : ℝ) / y) - 1) * 100)) ∧
    calculate_cagr 100 121 2 = some 10 ∧
    calculate_cagr 100 100 5 = some 0 ∧
    calculate_cagr 0 50 1 = none := by
  have hpos : ∀ s e y : ℝ, 0 < s → 0 < e → 0 < y →
      calculate_cagr s e y = some (((e / s) ^ ((1 : ℝ) / y) - 1) * 100) := by
    intro s e y hs he hy
    rw [calculate_cagr, if_neg]
    push_neg
    exact ⟨hs, he, hy⟩
  refine ⟨?_, hpos, ?_, ?_, ?_⟩
  · intro s e y h
    rw [calculate_cagr, if_pos h]
  · rw [hpos 100 121 2 (by norm_num) (by norm_num) (by norm_num)]
    have key : ((121 : ℝ) / 100) ^ ((1 : ℝ) / 2) = 11 / 10 := by
      rw [show ((121 : ℝ) / 100) = ((11 / 10 : ℝ)) ^ (2 : ℕ) by norm_num]
      rw [← Real.rpow_natCast ((11 / 10 : ℝ)) 2]
      rw [← Real.rpow_mul (by norm_num : (0 : ℝ) ≤ 11 / 10)]
      rw [show ((2 : ℕ) : ℝ) * ((1 : ℝ) / 2) = 1 by push_cast; ring]
      exact Real.rpow_one _
    rw [key]
    norm_num
  · rw [hpos 100 100 5 (by norm_num) (by norm_num) (by norm_num)]
    norm_num [Real.one_rpow]
  · rw [calculate_cagr, if_pos (Or.inl le_rfl)]

/-- C4 witness: the characterisation applied at concrete inputs. -/
theorem c4_calculate_cagr_witness :
    calculate_cagr (-5) 2 1 = none ∧
    calculate_cagr 1 4 1 = some (((4 / 1 : ℝ) ^ ((1 : ℝ) / 1) - 1) * 100) :=
  ⟨c4_calculate_cagr.1 (-5) 2 1 (Or.inl (by norm_num)),
    c4_calculate_cagr.2.1 1 4 1 (by norm_num) (by norm_num) (by norm_num)⟩

/-- C8 (code bug): the claim says an empty fetched history degrades to an
empty sampled frame and all-None CAGR results with no exception escaping the
core. `get_fund_data` does return the empty frame, but `get_cagr_from_history`
has no empty-guard (every sibling consumer guards `.empty` first), so the
column access on the column-less empty frame raises KeyError for every
horizon instead of returning None — the theorem evaluates the code at the
failing input. -/
theorem c8_empty_pipeline :
    (∀ cutoff : Date, get_fund_data [] cutoff = []) ∧
    (∀ (cutoff : Date) (years : ℚ),
      get_cagr_from_history [] cutoff years = Except.error PdErr.keyError) :=
  ⟨fun _ => rfl, fun _ _ => rfl⟩

/-- C5 counterexample: an empty fetched history leaves zero observations
after filtering — fewer than two — yet the result is not None as the claim
states: the unguarded column access raises KeyError instead. -/
theorem c5_counterexample :
    (([] : List Obs).filter
      (fun o => decide (Date.Le ⟨2024, 1, 1⟩ o.date))).length < 2 ∧
    get_cagr_from_history [] ⟨2024, 1, 1⟩ 2 = Except.error PdErr.keyError ∧
    ∀ r : Option ℝ, get_cagr_from_history [] ⟨2024, 1, 1⟩ 2 ≠ Except.ok r := by
  refine ⟨by decide, rfl, ?_⟩
  intro r h
  exact Except.noConfusion h

/-- C5 (amended): both CAGR window selectors choose the window by filtering
the history to timestamps on or after the horizon cutoff and feeding the
earliest and latest remaining observations to `calculate_cagr`; on a
nonempty fund history with fewer than two in-window observations the result
is None, but on an empty fetched history the unguarded column access raises
KeyError instead of returning None. The Nifty selector guards the empty
frame and returns None below two rows as claimed. -/
theorem c5_cagr_window :
    (∀ (hist : List Obs) (cutoff : Date) (years : ℚ),
      (hist = [] →
        get_cagr_from_history hist cutoff years = Except.error PdErr.keyError) ∧
      (hist ≠ [] →
        (hist.filter (fun o => decide (Date.Le cutoff o.date))).length < 2 →
        get_cagr_from_history hist cutoff years = Except.ok none) ∧
      (2 ≤ (hist.filter (fun o => decide (Date.Le cutoff o.date))).length →
        ∃ s e, s ∈ hist ∧ e ∈ hist ∧
          Date.Le cutoff s.date ∧ Date.Le cutoff e.date ∧
          (∀ o ∈ hist, Date.Le cutoff o.date → Date.Le s.date o.date) ∧
          (∀ o ∈ hist, Date.Le cutoff o.date → Date.Le o.date e.date) ∧
          get_cagr_from_history hist cutoff years =
            Except.ok (calculate_cagr (s.nav : ℝ) (e.nav : ℝ) (years : ℝ)))) ∧
    (∀ (nifty : List NiftyRow) (cutoff : Int) (years : ℚ),
      ((nifty.filter (fun r => decide (cutoff ≤ r.date))).length < 2 →
        nifty_cagr_years nifty cutoff years = none) ∧
      (2 ≤ (nifty.filter (fun r => decide (cutoff ≤ r.date))).length →
        ∃ s e, s ∈ nifty ∧ e ∈ nifty ∧ cutoff ≤ s.date ∧ cutoff ≤ e.date ∧
          (∀ r ∈ nifty, cutoff ≤ r.date → s.date ≤ r.date) ∧
          (∀ r ∈ nifty, cutoff ≤ r.date → r.date ≤ e.date) ∧
          nifty_cagr_years nifty cutoff years =
            calculate_cagr (s.price : ℝ) (e.price : ℝ) (years : ℝ))) := by
  constructor
  · intro hist cutoff years
    set fl := hist.filter (fun o => decide (Date.Le cutoff o.date)) with hfl
    have hlen : (fl.insertionSort obsLe).length = fl.length :=
      (List.perm_insertionSort obsLe fl).length_eq
    refine ⟨?_, ?_, ?_⟩
    · intro h
      subst h
      rfl
    · intro hne h
      have hE : hist.isEmpty = false := by
        cases hist with
        | nil => exact absurd rfl hne
        | cons a t => rfl
      rw [get_cagr_from_history, if_neg (by simp [hE])]
      simp only [← hfl]
      rw [if_neg (by omega)]
    · intro h
      have hne_fl : fl ≠ [] := by
        intro hnil
        rw [hnil] at h
        simp at h
      have hE : hist.isEmpty = false := by
        cases hh : hist with
        | nil =>
          rw [hh] at hfl
          simp [hfl] at hne_fl
        | cons a t => rfl
      obtain ⟨s, hshead, hsmem, hsmin⟩ := insertionSort_head_min obsLe fl hne_fl
      obtain ⟨e, helast, hemem, hemax⟩ := insertionSort_getLast_max obsLe fl hne_fl
      have hsf := List.mem_filter.mp (hfl ▸ hsmem)
      have hef := List.mem_filter.mp (hfl ▸ hemem)
      refine ⟨s, e, hsf.1, hef.1, of_decide_eq_true hsf.2, of_decide_eq_true hef.2,
        ?_, ?_, ?_⟩
      · intro o ho hco
        exact hsmin o (hfl ▸ List.mem_filter.mpr ⟨ho, decide_eq_true hco⟩)
      · intro o ho hco
        exact hemax o (hfl ▸ List.mem_filter.mpr ⟨ho, decide_eq_true hco⟩)
      · rw [get_cagr_from_history, if_neg (by simp [hE])]
        simp only [← hfl]
        rw [if_pos (by omega), hshead, helast]
  · intro nifty cutoff years
    set fl := nifty.filter (fun r => decide (cutoff ≤ r.date)) with hfl
    have hlen : (fl.insertionSort niftyLe).length = fl.length :=
      (List.perm_insertionSort niftyLe fl).length_eq
    have hfl_sub : ∀ {x : NiftyRow}, x ∈ fl → x ∈ nifty ∧ cutoff ≤ x.date := by
      intro x hx
      have := List.mem_filter.mp (hfl ▸ hx)
      exact ⟨this.1, of_decide_eq_true this.2⟩
    constructor
    · intro h
      by_cases hemp : nifty.isEmpty
      · rw [nifty_cagr_years, if_pos hemp]
      · rw [nifty_cagr_years, if_neg hemp]
        simp only [← hfl]
        rw [if_neg (by omega)]
    · intro h
      have hne : fl ≠ [] := by
        intro hnil
        rw [hnil] at h
        simp at h
      have hnifty_ne : nifty.isEmpty = false := by
        cases hn : nifty with
        | nil =>
          rw [hn] at hfl
          simp [hfl] at hne
        | cons a t => rfl
      obtain ⟨s, hshead, hsmem, hsmin⟩ := insertionSort_head_min niftyLe fl hne
      obtain ⟨e, helast, hemem, hemax⟩ := insertionSort_getLast_max niftyLe fl hne
      refine ⟨s, e, (hfl_sub hsmem).1, (hfl_sub hemem).1,
        (hfl_sub hsmem).2, (hfl_sub hemem).2, ?_, ?_, ?_⟩
      · intro r hr hcr
        exact hsmin r (hfl ▸ List.mem_filter.mpr ⟨hr, decide_eq_true hcr⟩)
      · intro r hr hcr
        exact hemax r (hfl ▸ List.mem_filter.mpr ⟨hr, decide_eq_true hcr⟩)
      · rw [nifty_cagr_years, if_neg (by simp [hnifty_ne])]
        simp only [← hfl]
        rw [if_pos (by omega), hshead, helast]

/-- C5 witness: the amended characterisation at concrete inputs — a nonempty
single-observation fund history gives None, an empty one raises KeyError,
and the Nifty selector gives None below two rows. -/
theorem c5_cagr_window_witness :
    get_cagr_from_history [⟨⟨2023, 1, 3⟩, 10⟩] ⟨2020, 1, 1⟩ 2 = Except.ok none ∧
    get_cagr_from_history [] ⟨2020, 1, 1⟩ 2 = Except.error PdErr.keyError ∧
    nifty_cagr_years [⟨5, 100, none⟩] 0 2 = none :=
  ⟨(c5_cagr_window.1 [⟨⟨2023, 1, 3⟩, 10⟩] ⟨2020, 1, 1⟩ 2).2.1 (by simp) (by decide),
    (c5_cagr_window.1 [] ⟨2020, 1, 1⟩ 2).1 rfl,
    (c5_cagr_window.2 [⟨5, 100, none⟩] 0 2).1 (by decide)⟩

/-- C6 counterexample: primary date 1 with secondary dates 0 and 2 is
equidistant on both sides. Both index orders [0, 1] and [1, 0] are legal
outputs of the unstable `argsort` over the equal keys, and the selection
differs between them — with [1, 0] the later date (2) is chosen, so the
choice is neither independent of the sort order of the equal-distance
candidates nor always the earlier timestamp. -/
theorem c6_counterexample :
    validArgsort 1 [⟨0, 10, some 5⟩, ⟨2, 20, some 7⟩] [0, 1] ∧
    validArgsort 1 [⟨0, 10, some 5⟩, ⟨2, 20, some 7⟩] [1, 0] ∧
    selected_change [⟨0, 10, some 5⟩, ⟨2, 20, some 7⟩] [0, 1] = some 5 ∧
    selected_change [⟨0, 10, some 5⟩, ⟨2, 20, some 7⟩] [1, 0] = some 7 := by
  refine ⟨?_, ?_, rfl, rfl⟩ <;> exact ⟨by decide, by decide⟩

/-- C6 (amended): for every legal argsort output the aligner selects a
secondary observation whose absolute date distance from the primary date is
minimal; which of several equidistant candidates is selected depends on the
order argsort placed the equal keys in and is not guaranteed to be the
earlier one. -/
theorem c6_nearest_selected (d : Int) (nifty : List NiftyRow) (perm : List Nat)
    (hv : validArgsort d nifty perm) (hne : nifty ≠ []) :
    ∃ i, perm.head? = some i ∧ i < nifty.length ∧
      selected_change nifty perm = (nifty.getD i ⟨0, 0, none⟩).change ∧
      ∀ j < nifty.length, alignKey d nifty i ≤ alignKey d nifty j := by
  obtain ⟨hperm, hpair⟩ := hv
  cases hp : perm with
  | nil =>
    rw [hp] at hperm
    have : List.range nifty.length = [] := hperm.symm.eq_nil
    rw [List.range_eq_nil] at this
    exact absurd (List.length_eq_zero.mp this) hne
  | cons i t =>
    rw [hp] at hperm hpair
    have hi : i < nifty.length := by
      have : i ∈ List.range nifty.length :=
        hperm.mem_iff.mp (List.mem_cons_self i t)
      simpa using this
    refine ⟨i, rfl, hi, by simp [selected_change], ?_⟩
    intro j hj
    have hjmem : j ∈ i :: t :=
      hperm.mem_iff.mpr (by simpa using hj)
    rcases List.mem_cons.mp hjmem with rfl | hjt
    · exact le_rfl
    · exact (List.pairwise_cons.mp hpair).1 j hjt

/-- C6 witness: the amended statement at a concrete input. -/
theorem c6_nearest_selected_witness :
    ∃ i, ([0] : List Nat).head? = some i ∧
      i < ([⟨5, 100, some 2⟩] : List NiftyRow).length ∧
      selected_change [⟨5, 100, some 2⟩] [0] =
        (([⟨5, 100, some 2⟩] : List NiftyRow).getD i ⟨0, 0, none⟩).change ∧
      ∀ j < ([⟨5, 100, some 2⟩] : List NiftyRow).length,
        alignKey 3 [⟨5, 100, some 2⟩] i ≤ alignKey 3 [⟨5, 100, some 2⟩] j :=
  c6_nearest_selected 3 [⟨5, 100, some 2⟩] [0] ⟨by decide, by decide⟩ (by simp)

/-- C7: the claim says an absent CAGR is never presented as zero, but the
tiles interpolate `(fund_cagr_2y or 0)`: on a nonempty history whose window
holds a single observation — fewer than two — the code returns the undefined
metric None without raising, and the tile then renders that None as the
number 0. -/
theorem c7_none_rendered_as_zero :
    get_cagr_from_history [⟨⟨2022, 5, 3⟩, 50⟩] ⟨2021, 1, 1⟩ 2 =
      Except.ok none ∧
    cagr_tile_value none = 0 := by
  constructor
  · rw [get_cagr_from_history, if_neg (by simp)]
    have hf : ([⟨⟨2022, 5, 3⟩, 50⟩] : List Obs).filter
        (fun o => decide (Date.Le ⟨2021, 1, 1⟩ o.date)) =
        [⟨⟨2022, 5, 3⟩, 50⟩] := by
      decide
    simp [hf]
  · rfl

/-- Over a nonempty list, `firstMaxNav` picks a member whose nav bounds every
nav in the list (the first row attaining the maximum). -/
theorem firstMaxNav_spec : ∀ (l : List Obs), l ≠ [] →
    ∃ m, firstMaxNav l = some m ∧ m ∈ l ∧ ∀ o ∈ l, o.nav ≤ m.nav := by
  intro l
  induction l with
  | nil => intro h; exact absurd rfl h
  | cons a t ih =>
    intro _
    cases hm : firstMaxNav t with
    | none =>
      refine ⟨a, by simp [firstMaxNav, hm], List.mem_cons_self a t, ?_⟩
      intro o ho
      rcases List.mem_cons.mp ho with rfl | hot
      · exact le_rfl
      · exfalso
        have htne : t ≠ [] := by
          intro h
          rw [h] at hot
          simp at hot
        obtain ⟨m, hm2, _, _⟩ := ih htne
        rw [hm2] at hm
        cases hm
    | some m =>
      have htne : t ≠ [] := by
        intro h
        rw [h] at hm
        simp [firstMaxNav] at hm
      obtain ⟨m2, hm2, hmem2, hmax2⟩ := ih htne
      rw [hm2] at hm
      injection hm with hm
      subst hm
      by_cases hgt : m2.nav > a.nav
      · refine ⟨m2, ?_, List.mem_cons_of_mem a hmem2, ?_⟩
        · rw [firstMaxNav, hm2]
          simp [hgt]
        · intro o ho
          rcases List.mem_cons.mp ho with rfl | hot
          · exact le_of_lt hgt
          · exact hmax2 o hot
      · refine ⟨a, ?_, List.mem_cons_self a t, ?_⟩
        · rw [firstMaxNav, hm2]
          simp [hgt]
        · intro o ho
          rcases List.mem_cons.mp ho with rfl | hot
          · exact le_rfl
          · exact le_trans (hmax2 o hot) (not_lt.mp hgt)

/-- C10: on an empty history all four fields are None (and the function is
total, so nothing is raised); on a nonempty ascending history the current
fields are the value and date of the latest-dated row and the all-time
fields are the maximal nav over the whole history with a date attaining it. -/
theorem c10_current_and_alltime :
    get_current_and_alltime_nav [] = ⟨none, none, none, none⟩ ∧
    ∀ hist : List Obs, hist ≠ [] → List.Sorted obsLe hist →
      ∃ c m, get_current_and_alltime_nav hist =
          ⟨some c.nav, some c.date, some m.nav, some m.date⟩ ∧
        c ∈ hist ∧ (∀ o ∈ hist, Date.Le o.date c.date) ∧
        m ∈ hist ∧ (∀ o ∈ hist, o.nav ≤ m.nav) := by
  refine ⟨rfl, ?_⟩
  intro hist hne hsorted
  have hE : hist.isEmpty = false := by
    cases hist with
    | nil => exact absurd rfl hne
    | cons a t => rfl
  cases hl : hist.getLast? with
  | none =>
    rw [List.getLast?_eq_none_iff] at hl
    exact absurd hl hne
  | some c =>
    obtain ⟨m, hm, hmmem, hmmax⟩ := firstMaxNav_spec hist hne
    refine ⟨c, m, ?_, getLast?_mem hl, ?_, hmmem, hmmax⟩
    · rw [get_current_and_alltime_nav, if_neg (by simp [hE]), hl, hm]
    · exact sorted_getLast_all hsorted hl

/-- C10 witness: the characterisation at a concrete sorted two-row history. -/
theorem c10_current_and_alltime_witness :
    ∃ c m : Obs, get_current_and_alltime_nav
        [⟨⟨2023, 1, 3⟩, 10⟩, ⟨⟨2023, 2, 3⟩, 12⟩] =
        ⟨some c.nav, some c.date, some m.nav, some m.date⟩ ∧
      c ∈ ([⟨⟨2023, 1, 3⟩, 10⟩, ⟨⟨2023, 2, 3⟩, 12⟩] : List Obs) ∧
      (∀ o ∈ ([⟨⟨2023, 1, 3⟩, 10⟩, ⟨⟨2023, 2, 3⟩, 12⟩] : List Obs),
        Date.Le o.date c.date) ∧
      m ∈ ([⟨⟨2023, 1, 3⟩, 10⟩, ⟨⟨2023, 2, 3⟩, 12⟩] : List Obs) ∧
      (∀ o ∈ ([⟨⟨2023, 1, 3⟩, 10⟩, ⟨⟨2023, 2, 3⟩, 12⟩] : List Obs),
        o.nav ≤ m.nav) :=
  c10_current_and_alltime.2 [⟨⟨2023, 1, 3⟩, 10⟩, ⟨⟨2023, 2, 3⟩, 12⟩]
    (by simp) (by decide)
